import Mathlib

/-!
Verification of the settings-resolution and data-assembly layer of
`DataAccess_Class.py` (class `DigAccess`).

The embedding is shallow: Python dictionaries become association lists,
numpy arrays become fixed-length `List Int` values, Python float arithmetic
is modelled over `ℚ` (the conversions only use exact ceiling/floor), and
raised exceptions become `Except` error values.  Statements of the class
that mutate `self` are modelled by explicit state passing on a `Session`
structure.
-/

set_option maxHeartbeats 1000000

namespace Fierdat

/-- Header facts exposed by the metadata collaborator (`DigHeader`), read-only
to `DigAccess`: the channel identifiers, their display names, the total number
of reads in the file, and the native sample frequency. -/
structure Header where
  channel_list : List Int
  channel_names : List String
  data_length_reads : Nat
  file_frequency : ℚ

/-- `DigAccess.convert_time_to_read`:
`period_between_reads = 1 / file_frequency`, `int(np.ceil(time / period))`.
`np.ceil` yields an integral float, so the `int(...)` coercion is exact. -/
def convert_time_to_read (file_frequency : ℚ) (time : ℚ) : Int :=
  let period_between_reads := 1 / file_frequency
  ⌈time / period_between_reads⌉

/-- `DigAccess.convert_max_frequency_to_downsample`:
`int(np.floor(file_frequency / max_f))`. -/
def convert_max_frequency_to_downsample (file_frequency : ℚ) (max_f : ℚ) : Int :=
  ⌊file_frequency / max_f⌋

/-- C6: for every time `t` and file frequency `f > 0`, `convert_time_to_read`
returns `⌈t * f⌉`; it is monotone non-decreasing in `t`, satisfies
`t * f ≤ convert_time_to_read t`, and at `f = 1000`, `t = 0.0015` it
returns `2`. -/
theorem C6_time_to_read (f t t' : ℚ) (hf : 0 < f) (ht : t ≤ t') :
    convert_time_to_read f t = ⌈t * f⌉ ∧
    convert_time_to_read f t ≤ convert_time_to_read f t' ∧
    t * f ≤ (convert_time_to_read f t : ℚ) ∧
    convert_time_to_read 1000 (15 / 10000) = 2 := by
  have hconv : ∀ s : ℚ, convert_time_to_read f s = ⌈s * f⌉ := by
    intro s
    show ⌈s / (1 / f)⌉ = ⌈s * f⌉
    rw [div_div_eq_mul_div, div_one]
  refine ⟨hconv t, ?_, ?_, ?_⟩
  · rw [hconv t, hconv t']
    exact Int.ceil_le_ceil (mul_le_mul_of_nonneg_right ht hf.le)
  · rw [hconv t]
    exact Int.le_ceil (t * f)
  · show (⌈(15 : ℚ) / 10000 / (1 / 1000)⌉ : Int) = 2
    rw [div_div_eq_mul_div, div_one]
    rw [Int.ceil_eq_iff]
    norm_num

/-- Witness for C6 at `f = 1`, `t = 0`, `t' = 1`. -/
theorem C6_witness :
    convert_time_to_read 1 0 = ⌈(0 : ℚ) * 1⌉ ∧
    convert_time_to_read 1 0 ≤ convert_time_to_read 1 1 ∧
    (0 : ℚ) * 1 ≤ (convert_time_to_read 1 0 : ℚ) ∧
    convert_time_to_read 1000 (15 / 10000) = 2 :=
  C6_time_to_read 1 0 1 (by norm_num) (by norm_num)

/-- C7: for every `f > 0` and nonzero `max_f`, the converter returns
`⌊f / max_f⌋` (so the result is at most `f / max_f`); at `f = 1000`,
`max_f = 300` it returns `3`; and when `max_f > f` it returns `0` without
the converter rejecting the value. -/
theorem C7_max_frequency_to_downsample (f m : ℚ) (hf : 0 < f) (hm : m ≠ 0) :
    convert_max_frequency_to_downsample f m = ⌊f / m⌋ ∧
    (convert_max_frequency_to_downsample f m : ℚ) ≤ f / m ∧
    (f < m → convert_max_frequency_to_downsample f m = 0) ∧
    convert_max_frequency_to_downsample 1000 300 = 3 := by
  refine ⟨rfl, Int.floor_le (f / m), ?_, ?_⟩
  · intro hlt
    have hm0 : 0 < m := lt_trans hf hlt
    unfold convert_max_frequency_to_downsample
    rw [Int.floor_eq_zero_iff]
    constructor
    · positivity
    · rw [div_lt_one hm0]
      exact hlt
  · unfold convert_max_frequency_to_downsample
    rw [Int.floor_eq_iff]
    norm_num

/-- Witness for C7 at `f = 1000`, `m = 300`. -/
theorem C7_witness :
    convert_max_frequency_to_downsample 1000 300 = ⌊(1000 : ℚ) / 300⌋ ∧
    (convert_max_frequency_to_downsample 1000 300 : ℚ) ≤ 1000 / 300 ∧
    ((1000 : ℚ) < 300 → convert_max_frequency_to_downsample 1000 300 = 0) ∧
    convert_max_frequency_to_downsample 1000 300 = 3 :=
  C7_max_frequency_to_downsample 1000 300 (by norm_num) (by norm_num)

/-- Python values that can appear in a settings dictionary: integers,
floats (modelled over `ℚ`), lists of channel numbers, and strings.  The
source performs no type checking on the directly-copied settings values,
so the embedding must keep the value type open. -/
inductive Val where
  | vInt : Int → Val
  | vFloat : ℚ → Val
  | vList : List Int → Val
  | vStr : String → Val
deriving DecidableEq

/-- `type(v) is int` in the source. -/
def Val.isInt : Val → Bool
  | .vInt _ => true
  | _ => false

/-- `v` is a list (the only sequence shape the embedding carries). -/
def Val.isSeq : Val → Bool
  | .vList _ => true
  | _ => false

/-- A Python dictionary with string keys, as an association list (first
binding wins on lookup, matching `dict` semantics for distinct keys). -/
abbrev SDict := List (String × Val)

/-- `d[k]` as an optional value (first binding wins). -/
def lookupVal : SDict → String → Option Val
  | [], _ => none
  | p :: rest, k => if p.1 = k then some p.2 else lookupVal rest k

/-- `d[k] = v`: overwrite the binding when the key is present, append it
otherwise (Python dict assignment). -/
def updateD (d : SDict) (k : String) (v : Val) : SDict :=
  if d.any (fun p => decide (p.1 = k)) then
    d.map (fun p => if p.1 = k then (k, v) else p)
  else d ++ [(k, v)]

lemma lookupVal_updateD_self (d : SDict) (k : String) (v : Val) :
    lookupVal (updateD d k v) k = some v := by
  unfold updateD
  by_cases h : d.any (fun p => decide (p.1 = k)) = true
  · rw [if_pos h]
    induction d with
    | nil => simp at h
    | cons p rest ih =>
      by_cases hp : p.1 = k
      · simp [lookupVal, hp]
      · have hr : rest.any (fun p => decide (p.1 = k)) = true := by
          simp only [List.any_cons, Bool.or_eq_true, decide_eq_true_eq] at h
          rcases h with h | h
          · exact absurd h hp
          · exact h
        simpa [lookupVal, hp] using ih hr
  · rw [if_neg h]
    induction d with
    | nil => simp [lookupVal]
    | cons p rest ih =>
      simp only [List.any_cons, Bool.or_eq_true, decide_eq_true_eq, not_or] at h
      simpa [lookupVal, h.1] using ih (by simpa using h.2)

lemma lookupVal_map_update_ne (d : SDict) (k k' : String) (v : Val) (h : k' ≠ k) :
    lookupVal (d.map (fun p => if p.1 = k then (k, v) else p)) k' = lookupVal d k' := by
  induction d with
  | nil => rfl
  | cons p rest ih =>
    by_cases hp : p.1 = k
    · have hpk' : ¬ p.1 = k' := by rw [hp]; exact Ne.symm h
      simp only [List.map_cons, if_pos hp, lookupVal, if_neg (Ne.symm h), if_neg hpk']
      exact ih
    · simp only [List.map_cons, if_neg hp, lookupVal]
      by_cases hpk' : p.1 = k'
      · rw [if_pos hpk', if_pos hpk']
      · rw [if_neg hpk', if_neg hpk']
        exact ih

lemma lookupVal_append_ne (d : SDict) (k k' : String) (v : Val) (h : k' ≠ k) :
    lookupVal (d ++ [(k, v)]) k' = lookupVal d k' := by
  induction d with
  | nil => simp [lookupVal, Ne.symm h]
  | cons p rest ih =>
    simp only [List.cons_append, lookupVal]
    by_cases hpk' : p.1 = k'
    · rw [if_pos hpk', if_pos hpk']
    · rw [if_neg hpk', if_neg hpk']
      exact ih

lemma lookupVal_updateD_ne (d : SDict) (k k' : String) (v : Val) (h : k' ≠ k) :
    lookupVal (updateD d k v) k' = lookupVal d k' := by
  unfold updateD
  by_cases hany : d.any (fun p => decide (p.1 = k)) = true
  · rw [if_pos hany]
    exact lookupVal_map_update_ne d k k' v h
  · rw [if_neg hany]
    exact lookupVal_append_ne d k k' v h

lemma lookupVal_mem (d : SDict) (k : String) (v : Val)
    (h : lookupVal d k = some v) : (k, v) ∈ d := by
  induction d with
  | nil => simp [lookupVal] at h
  | cons p rest ih =>
    by_cases hp : p.1 = k
    · simp only [lookupVal, if_pos hp] at h
      have hpv : p = (k, v) := by
        cases p with
        | mk a b => simp_all
      rw [← hpv]
      exact List.mem_cons_self p rest
    · simp only [lookupVal, if_neg hp] at h
      exact List.mem_cons_of_mem _ (ih h)

lemma lookupVal_isSome_of_mem (d : SDict) (k : String)
    (h : k ∈ d.map Prod.fst) : ∃ v, lookupVal d k = some v := by
  induction d with
  | nil => simp at h
  | cons p rest ih =>
    by_cases hp : p.1 = k
    · exact ⟨p.2, by simp [lookupVal, hp]⟩
    · have : k ∈ rest.map Prod.fst := by
        simp only [List.map_cons, List.mem_cons] at h
        rcases h with h | h
        · exact absurd h.symm hp
        · exact h
      simpa [lookupVal, hp] using ih this

lemma lookupVal_none_of_not_mem (d : SDict) (k : String)
    (h : k ∉ d.map Prod.fst) : lookupVal d k = none := by
  induction d with
  | nil => rfl
  | cons p rest ih =>
    simp only [List.map_cons, List.mem_cons, not_or] at h
    rw [lookupVal, if_neg (Ne.symm h.1)]
    exact ih h.2

/-- The settings keys `DigAccess.define_read_settings` understands
(`self.known_keys`). -/
def known_keys : List String :=
  ["downsample", "channels_to_read", "start_read", "end_read",
   "start_time", "end_time", "max_frequency"]

/-- Errors raised during settings resolution.  `unknownKeys` and
`conflictPair` are `DigReadSettingError`s carrying the data their messages
report; `typeError` / `zeroDivision` model the Python `TypeError` /
`ZeroDivisionError` escaping from a conversion applied to a bad value. -/
inductive SettingErr where
  | unknownKeys : List String → List String → SettingErr
  | conflictPair : String → String → SettingErr
  | typeError : SettingErr
  | zeroDivision : SettingErr
deriving DecidableEq

/-- Numeric coercion: arithmetic on a settings value succeeds exactly for
ints and floats. -/
def asNum : Val → Option ℚ
  | .vInt n => some (n : ℚ)
  | .vFloat q => some q
  | _ => none

/-- `self.default_settings`: read the whole file on all channels without
downsampling. -/
def default_settings (H : Header) : SDict :=
  [("downsample", .vInt 1),
   ("channels_to_read", .vList H.channel_list),
   ("start_read", .vInt 0),
   ("end_read", .vInt (H.data_length_reads : Int))]

/-- The loop `for key in default_settings.keys(): if key in user_keys:
settings_dict[key] = self.user_settings[key]`. -/
def overwrite (user : List (String × Val)) (sd : SDict) : List String → SDict
  | [] => sd
  | key :: rest =>
    match lookupVal user key with
    | some v => overwrite user (updateD sd key v) rest
    | none => overwrite user sd rest

/-- `if type(settings_dict['channels_to_read']) is int:
settings_dict['channels_to_read'] = [self.user_settings['channels_to_read']]`.
A stored int can only have been copied verbatim from the user settings, so
re-reading the user dictionary returns the same value the store holds. -/
def coerce_channels (sd : SDict) : SDict :=
  match lookupVal sd "channels_to_read" with
  | some (.vInt n) => updateD sd "channels_to_read" (.vList [n])
  | _ => sd

/-- The `start_time` block: conflict check against `start_read`, then
conversion of the user-supplied time into `settings_dict['start_read']`. -/
def apply_start (H : Header) (user : List (String × Val)) (sd : SDict) :
    Except SettingErr SDict :=
  if "start_time" ∈ user.map Prod.fst then
    if "start_read" ∈ user.map Prod.fst then
      .error (.conflictPair "start_time" "start_read")
    else
      match (lookupVal user "start_time").bind asNum with
      | some t =>
        .ok (updateD sd "start_read" (.vInt (convert_time_to_read H.file_frequency t)))
      | none => .error .typeError
  else .ok sd

/-- The `end_time` block, symmetric to `apply_start`. -/
def apply_end (H : Header) (user : List (String × Val)) (sd : SDict) :
    Except SettingErr SDict :=
  if "end_time" ∈ user.map Prod.fst then
    if "end_read" ∈ user.map Prod.fst then
      .error (.conflictPair "end_time" "end_read")
    else
      match (lookupVal user "end_time").bind asNum with
      | some t =>
        .ok (updateD sd "end_read" (.vInt (convert_time_to_read H.file_frequency t)))
      | none => .error .typeError
  else .ok sd

/-- The `max_frequency` block: conflict check against `downsample`, then
`file_frequency / max_f` (which raises on a zero divisor) floored into
`settings_dict['downsample']`. -/
def apply_max (H : Header) (user : List (String × Val)) (sd : SDict) :
    Except SettingErr SDict :=
  if "max_frequency" ∈ user.map Prod.fst then
    if "downsample" ∈ user.map Prod.fst then
      .error (.conflictPair "max_frequency" "downsample")
    else
      match (lookupVal user "max_frequency").bind asNum with
      | some m =>
        if m = 0 then .error .zeroDivision
        else
          .ok (updateD sd "downsample"
            (.vInt (convert_max_frequency_to_downsample H.file_frequency m)))
      | none => .error .typeError
  else .ok sd

/-- `DigAccess.define_read_settings`, with the dictionaries it reads
threaded through explicitly: the result also returns the user settings and
the default settings so that theorems can speak about mutation.  The body
mirrors the source statement by statement; every write targets the fresh
`settings_dict` copy (`dict(default_settings)`), never the inputs.
The guard is Python's strict-subset test `set(user_keys) < set(known_settings)`. -/
def define_read_settings_tr (H : Header) (user : List (String × Val))
    (defaults : SDict) :
    Except SettingErr SDict × List (String × Val) × SDict :=
  if ¬ ((∀ k ∈ user.map Prod.fst, k ∈ known_keys) ∧
        (∃ k ∈ known_keys, k ∉ user.map Prod.fst)) then
    (.error (.unknownKeys
        ((user.map Prod.fst).filter (fun k => decide (k ∉ known_keys))) known_keys),
      user, defaults)
  else
    ((apply_start H user
        (coerce_channels (overwrite user defaults (defaults.map Prod.fst)))).bind
      (fun sd1 => (apply_end H user sd1).bind
        (fun sd2 => apply_max H user sd2)),
      user, defaults)

/-- `DigAccess.define_read_settings` proper: resolve the user settings
against the defaults derived from the header. -/
def define_read_settings (H : Header) (user : List (String × Val)) :
    Except SettingErr SDict :=
  (define_read_settings_tr H user (default_settings H)).1

/-- C10: settings resolution never mutates its inputs — whether it succeeds
or fails, the user settings mapping and the default-settings mapping are
returned exactly as supplied; the resolved plan is built in a fresh mapping
copied from the defaults. -/
theorem C10_no_input_mutation (H : Header) (user : List (String × Val))
    (defaults : SDict) :
    (define_read_settings_tr H user defaults).2.1 = user ∧
    (define_read_settings_tr H user defaults).2.2 = defaults := by
  unfold define_read_settings_tr
  split
  · exact ⟨rfl, rfl⟩
  · exact ⟨rfl, rfl⟩

/-- C8: a settings mapping with at least one unknown key makes resolution
fail with the error listing exactly the unknown keys together with the
recognized keys; no plan is produced. -/
theorem C8_unknown_keys (H : Header) (user : List (String × Val))
    (h : ∃ k ∈ user.map Prod.fst, k ∉ known_keys) :
    define_read_settings H user =
      .error (.unknownKeys
        ((user.map Prod.fst).filter (fun k => decide (k ∉ known_keys))) known_keys) ∧
    ∀ k, k ∈ (user.map Prod.fst).filter (fun k => decide (k ∉ known_keys)) ↔
      (k ∈ user.map Prod.fst ∧ k ∉ known_keys) := by
  constructor
  · unfold define_read_settings define_read_settings_tr
    rw [if_pos]
    intro ⟨hall, _⟩
    obtain ⟨k, hk, hnk⟩ := h
    exact hnk (hall k hk)
  · intro k
    simp [List.mem_filter]

/-- Witness for C8: the mapping `{bogus: 0}` is rejected with `[bogus]`
reported as unknown. -/
theorem C8_witness :
    define_read_settings
        { channel_list := [0, 1], channel_names := ["c0", "c1"],
          data_length_reads := 100, file_frequency := 1000 }
        [("bogus", Val.vInt 0)] =
      .error (.unknownKeys
        (([("bogus", Val.vInt 0)].map Prod.fst).filter
          (fun k => decide (k ∉ known_keys))) known_keys) :=
  (C8_unknown_keys _ _ (by decide)).1

lemma overwrite_lookup (user : List (String × Val)) (dkeys : List String) :
    ∀ (sd : SDict) (k : String),
      lookupVal (overwrite user sd dkeys) k =
        if k ∈ dkeys then
          match lookupVal user k with
          | some v => some v
          | none => lookupVal sd k
        else lookupVal sd k := by
  induction dkeys with
  | nil =>
    intro sd k
    simp [overwrite]
  | cons k0 rest ih =>
    intro sd k
    cases hu : lookupVal user k0 with
    | none =>
      rw [show overwrite user sd (k0 :: rest) = overwrite user sd rest from by
        simp [overwrite, hu]]
      rw [ih sd k]
      by_cases hkr : k ∈ rest
      · simp [hkr, List.mem_cons]
      · by_cases hkk0 : k = k0
        · subst hkk0
          simp [hkr, hu]
        · simp [hkr, hkk0]
    | some v =>
      rw [show overwrite user sd (k0 :: rest) = overwrite user (updateD sd k0 v) rest from by
        simp [overwrite, hu]]
      rw [ih (updateD sd k0 v) k]
      by_cases hkr : k ∈ rest
      · cases huk : lookupVal user k with
        | some w => simp [hkr, huk, List.mem_cons]
        | none =>
          have hkk0 : k ≠ k0 := fun hc => by rw [hc, hu] at huk; cases huk
          simp [hkr, huk, List.mem_cons, lookupVal_updateD_ne sd k0 k v hkk0]
      · by_cases hkk0 : k = k0
        · subst hkk0
          simp [hkr, hu, lookupVal_updateD_self sd k v]
        · simp [hkr, hkk0, lookupVal_updateD_ne sd k0 k v hkk0]

lemma coerce_channels_other (sd : SDict) (k : String)
    (h : k ≠ "channels_to_read") :
    lookupVal (coerce_channels sd) k = lookupVal sd k := by
  unfold coerce_channels
  cases hv : lookupVal sd "channels_to_read" with
  | none => rfl
  | some v =>
    cases v with
    | vInt n => exact lookupVal_updateD_ne sd _ k _ h
    | vFloat q => rfl
    | vList l => rfl
    | vStr s => rfl

lemma coerce_channels_list (sd : SDict) (v : Val)
    (h : lookupVal sd "channels_to_read" = some v)
    (hv : v.isInt = true ∨ v.isSeq = true) :
    ∃ l, lookupVal (coerce_channels sd) "channels_to_read" = some (.vList l) := by
  unfold coerce_channels
  rw [h]
  cases v with
  | vInt n => exact ⟨[n], lookupVal_updateD_self sd _ _⟩
  | vList l => exact ⟨l, h⟩
  | vFloat q => simp [Val.isInt, Val.isSeq] at hv
  | vStr s => simp [Val.isInt, Val.isSeq] at hv

lemma apply_start_ok (H : Header) (user : List (String × Val)) (sd : SDict)
    (h : "start_time" ∉ user.map Prod.fst ∨
      ("start_read" ∉ user.map Prod.fst ∧
        ((lookupVal user "start_time").bind asNum).isSome = true)) :
    ∃ sd', apply_start H user sd = .ok sd' ∧
      (∀ k, k ≠ "start_read" → lookupVal sd' k = lookupVal sd k) ∧
      ((∃ n : Int, lookupVal sd' "start_read" = some (.vInt n)) ∨
        lookupVal sd' "start_read" = lookupVal sd "start_read") := by
  unfold apply_start
  rcases h with h | ⟨h1, h2⟩
  · rw [if_neg h]
    exact ⟨sd, rfl, fun k _ => rfl, .inr rfl⟩
  · by_cases hmem : "start_time" ∈ user.map Prod.fst
    · rw [if_pos hmem, if_neg h1]
      obtain ⟨t, ht⟩ := Option.isSome_iff_exists.mp h2
      rw [ht]
      refine ⟨_, rfl, ?_, ?_⟩
      · intro k hk
        exact lookupVal_updateD_ne sd _ k _ hk
      · exact .inl ⟨_, lookupVal_updateD_self sd _ _⟩
    · rw [if_neg hmem]
      exact ⟨sd, rfl, fun k _ => rfl, .inr rfl⟩

lemma apply_end_ok (H : Header) (user : List (String × Val)) (sd : SDict)
    (h : "end_time" ∉ user.map Prod.fst ∨
      ("end_read" ∉ user.map Prod.fst ∧
        ((lookupVal user "end_time").bind asNum).isSome = true)) :
    ∃ sd', apply_end H user sd = .ok sd' ∧
      (∀ k, k ≠ "end_read" → lookupVal sd' k = lookupVal sd k) ∧
      ((∃ n : Int, lookupVal sd' "end_read" = some (.vInt n)) ∨
        lookupVal sd' "end_read" = lookupVal sd "end_read") := by
  unfold apply_end
  rcases h with h | ⟨h1, h2⟩
  · rw [if_neg h]
    exact ⟨sd, rfl, fun k _ => rfl, .inr rfl⟩
  · by_cases hmem : "end_time" ∈ user.map Prod.fst
    · rw [if_pos hmem, if_neg h1]
      obtain ⟨t, ht⟩ := Option.isSome_iff_exists.mp h2
      rw [ht]
      refine ⟨_, rfl, ?_, ?_⟩
      · intro k hk
        exact lookupVal_updateD_ne sd _ k _ hk
      · exact .inl ⟨_, lookupVal_updateD_self sd _ _⟩
    · rw [if_neg hmem]
      exact ⟨sd, rfl, fun k _ => rfl, .inr rfl⟩

lemma apply_max_ok (H : Header) (user : List (String × Val)) (sd : SDict)
    (h : "max_frequency" ∉ user.map Prod.fst ∨
      ("downsample" ∉ user.map Prod.fst ∧
        ∃ m, (lookupVal user "max_frequency").bind asNum = some m ∧ m ≠ 0)) :
    ∃ sd', apply_max H user sd = .ok sd' ∧
      (∀ k, k ≠ "downsample" → lookupVal sd' k = lookupVal sd k) ∧
      ((∃ n : Int, lookupVal sd' "downsample" = some (.vInt n)) ∨
        lookupVal sd' "downsample" = lookupVal sd "downsample") := by
  unfold apply_max
  rcases h with h | ⟨h1, h2⟩
  · rw [if_neg h]
    exact ⟨sd, rfl, fun k _ => rfl, .inr rfl⟩
  · by_cases hmem : "max_frequency" ∈ user.map Prod.fst
    · rw [if_pos hmem, if_neg h1]
      obtain ⟨m, hm, hm0⟩ := h2
      rw [hm]
      refine ⟨updateD sd "downsample"
        (.vInt (convert_max_frequency_to_downsample H.file_frequency m)), ?_, ?_, ?_⟩
      · show (if m = 0 then Except.error SettingErr.zeroDivision else _) = _
        rw [if_neg hm0]
      · intro k hk
        exact lookupVal_updateD_ne sd _ k _ hk
      · exact .inl ⟨_, lookupVal_updateD_self sd _ _⟩
    · rw [if_neg hmem]
      exact ⟨sd, rfl, fun k _ => rfl, .inr rfl⟩

lemma apply_start_conflict (H : Header) (user : List (String × Val)) (sd : SDict)
    (h1 : "start_time" ∈ user.map Prod.fst) (h2 : "start_read" ∈ user.map Prod.fst) :
    apply_start H user sd = .error (.conflictPair "start_time" "start_read") := by
  unfold apply_start
  rw [if_pos h1, if_pos h2]

lemma apply_end_conflict (H : Header) (user : List (String × Val)) (sd : SDict)
    (h1 : "end_time" ∈ user.map Prod.fst) (h2 : "end_read" ∈ user.map Prod.fst) :
    apply_end H user sd = .error (.conflictPair "end_time" "end_read") := by
  unfold apply_end
  rw [if_pos h1, if_pos h2]

lemma apply_max_conflict (H : Header) (user : List (String × Val)) (sd : SDict)
    (h1 : "max_frequency" ∈ user.map Prod.fst) (h2 : "downsample" ∈ user.map Prod.fst) :
    apply_max H user sd = .error (.conflictPair "max_frequency" "downsample") := by
  unfold apply_max
  rw [if_pos h1, if_pos h2]

/-- `numNonzero v`: the value is numeric and nonzero (so a division by it
cannot raise). -/
def numNonzero (v : Val) : Bool :=
  match asNum v with
  | some m => decide (m ≠ 0)
  | none => false

/-- The value typing that `DigAccess.define_read_settings` implicitly relies
on: integers for the directly-copied read bounds and downsample factor, an
int or a list for the channel selection, numbers for the time bounds, and a
nonzero number for the frequency ceiling. -/
def wellTypedEntry (p : String × Val) : Prop :=
  (p.1 = "downsample" → p.2.isInt = true) ∧
  (p.1 = "start_read" → p.2.isInt = true) ∧
  (p.1 = "end_read" → p.2.isInt = true) ∧
  (p.1 = "channels_to_read" → (p.2.isInt = true ∨ p.2.isSeq = true)) ∧
  (p.1 = "start_time" → (asNum p.2).isSome = true) ∧
  (p.1 = "end_time" → (asNum p.2).isSome = true) ∧
  (p.1 = "max_frequency" → numNonzero p.2 = true)

instance (p : String × Val) : Decidable (wellTypedEntry p) := by
  unfold wellTypedEntry
  infer_instance

lemma isInt_exists (v : Val) (h : v.isInt = true) : ∃ n : Int, v = .vInt n := by
  cases v with
  | vInt n => exact ⟨n, rfl⟩
  | vFloat q => simp [Val.isInt] at h
  | vList l => simp [Val.isInt] at h
  | vStr s => simp [Val.isInt] at h

lemma numNonzero_exists (v : Val) (h : numNonzero v = true) :
    ∃ m, asNum v = some m ∧ m ≠ 0 := by
  unfold numNonzero at h
  cases hv : asNum v with
  | none => rw [hv] at h; cases h
  | some m =>
    rw [hv] at h
    simp only [decide_eq_true_eq] at h
    exact ⟨m, rfl, h⟩

/-- C2 (amended): a settings mapping whose keys are a subset of the known
keys, with no mutually-exclusive pair, and whose values are well typed for
their keys, resolves successfully to a plan carrying all four fields, with
`downsample`/`start_read`/`end_read` integers and `channels_to_read` a
list.  (The typing hypothesis is required: values are copied without any
check, see `C2_counterexample`.) -/
theorem C2_resolution_well_typed (H : Header) (user : List (String × Val))
    (hsub : ∀ k ∈ user.map Prod.fst, k ∈ known_keys)
    (hc1 : ¬("start_time" ∈ user.map Prod.fst ∧ "start_read" ∈ user.map Prod.fst))
    (hc2 : ¬("end_time" ∈ user.map Prod.fst ∧ "end_read" ∈ user.map Prod.fst))
    (hc3 : ¬("max_frequency" ∈ user.map Prod.fst ∧ "downsample" ∈ user.map Prod.fst))
    (htyped : ∀ p ∈ user, wellTypedEntry p) :
    ∃ sd, define_read_settings H user = .ok sd ∧
      (∃ n : Int, lookupVal sd "downsample" = some (.vInt n)) ∧
      (∃ l : List Int, lookupVal sd "channels_to_read" = some (.vList l)) ∧
      (∃ n : Int, lookupVal sd "start_read" = some (.vInt n)) ∧
      (∃ n : Int, lookupVal sd "end_read" = some (.vInt n)) := by
  have hguard : (∀ k ∈ user.map Prod.fst, k ∈ known_keys) ∧
      (∃ k ∈ known_keys, k ∉ user.map Prod.fst) := by
    refine ⟨hsub, ?_⟩
    by_cases hst : "start_time" ∈ user.map Prod.fst
    · exact ⟨"start_read", by decide, fun hc => hc1 ⟨hst, hc⟩⟩
    · exact ⟨"start_time", by decide, hst⟩
  have hdk : (default_settings H).map Prod.fst =
      ["downsample", "channels_to_read", "start_read", "end_read"] := rfl
  have how := overwrite_lookup user ((default_settings H).map Prod.fst)
      (default_settings H)
  -- the four fields of settings_dict after the overwrite loop
  have hdown : ∃ n : Int,
      lookupVal (overwrite user (default_settings H)
        ((default_settings H).map Prod.fst)) "downsample" = some (.vInt n) := by
    have h1 := how "downsample"
    rw [if_pos (show ("downsample" : String) ∈ (default_settings H).map Prod.fst by
      rw [hdk]; decide)] at h1
    cases hu : lookupVal user "downsample" with
    | none =>
      rw [hu] at h1
      exact ⟨1, h1.trans rfl⟩
    | some v =>
      rw [hu] at h1
      have hwt := htyped _ (lookupVal_mem user _ v hu)
      obtain ⟨n, hn⟩ := isInt_exists v (hwt.1 rfl)
      rw [hn] at h1
      exact ⟨n, h1.trans rfl⟩
  have hstart : ∃ n : Int,
      lookupVal (overwrite user (default_settings H)
        ((default_settings H).map Prod.fst)) "start_read" = some (.vInt n) := by
    have h1 := how "start_read"
    rw [if_pos (show ("start_read" : String) ∈ (default_settings H).map Prod.fst by
      rw [hdk]; decide)] at h1
    cases hu : lookupVal user "start_read" with
    | none =>
      rw [hu] at h1
      exact ⟨0, h1.trans rfl⟩
    | some v =>
      rw [hu] at h1
      have hwt := htyped _ (lookupVal_mem user _ v hu)
      obtain ⟨n, hn⟩ := isInt_exists v (hwt.2.1 rfl)
      rw [hn] at h1
      exact ⟨n, h1.trans rfl⟩
  have hend : ∃ n : Int,
      lookupVal (overwrite user (default_settings H)
        ((default_settings H).map Prod.fst)) "end_read" = some (.vInt n) := by
    have h1 := how "end_read"
    rw [if_pos (show ("end_read" : String) ∈ (default_settings H).map Prod.fst by
      rw [hdk]; decide)] at h1
    cases hu : lookupVal user "end_read" with
    | none =>
      rw [hu] at h1
      exact ⟨(H.data_length_reads : Int), h1.trans rfl⟩
    | some v =>
      rw [hu] at h1
      have hwt := htyped _ (lookupVal_mem user _ v hu)
      obtain ⟨n, hn⟩ := isInt_exists v (hwt.2.2.1 rfl)
      rw [hn] at h1
      exact ⟨n, h1.trans rfl⟩
  have hchan : ∃ v, lookupVal (overwrite user (default_settings H)
      ((default_settings H).map Prod.fst)) "channels_to_read" = some v ∧
      (v.isInt = true ∨ v.isSeq = true) := by
    have h1 := how "channels_to_read"
    rw [if_pos (show ("channels_to_read" : String) ∈ (default_settings H).map Prod.fst by
      rw [hdk]; decide)] at h1
    cases hu : lookupVal user "channels_to_read" with
    | none =>
      rw [hu] at h1
      exact ⟨.vList H.channel_list, h1.trans rfl, .inr rfl⟩
    | some v =>
      rw [hu] at h1
      have hwt := htyped _ (lookupVal_mem user _ v hu)
      exact ⟨v, h1.trans rfl, hwt.2.2.2.1 rfl⟩
  obtain ⟨vch, hvch, hvchT⟩ := hchan
  obtain ⟨lch, hlch⟩ := coerce_channels_list _ vch hvch hvchT
  obtain ⟨nd, hnd⟩ := hdown
  obtain ⟨ns, hns⟩ := hstart
  obtain ⟨ne', hne⟩ := hend
  -- run the three conversion blocks
  have hok1 : "start_time" ∉ user.map Prod.fst ∨
      ("start_read" ∉ user.map Prod.fst ∧
        ((lookupVal user "start_time").bind asNum).isSome = true) := by
    by_cases hst : "start_time" ∈ user.map Prod.fst
    · refine .inr ⟨fun hc => hc1 ⟨hst, hc⟩, ?_⟩
      obtain ⟨v, hv⟩ := lookupVal_isSome_of_mem user _ hst
      have hwt := htyped _ (lookupVal_mem user _ v hv)
      rw [hv]
      exact hwt.2.2.2.2.1 rfl
    · exact .inl hst
  have hok2 : "end_time" ∉ user.map Prod.fst ∨
      ("end_read" ∉ user.map Prod.fst ∧
        ((lookupVal user "end_time").bind asNum).isSome = true) := by
    by_cases hst : "end_time" ∈ user.map Prod.fst
    · refine .inr ⟨fun hc => hc2 ⟨hst, hc⟩, ?_⟩
      obtain ⟨v, hv⟩ := lookupVal_isSome_of_mem user _ hst
      have hwt := htyped _ (lookupVal_mem user _ v hv)
      rw [hv]
      exact hwt.2.2.2.2.2.1 rfl
    · exact .inl hst
  have hok3 : "max_frequency" ∉ user.map Prod.fst ∨
      ("downsample" ∉ user.map Prod.fst ∧
        ∃ m, (lookupVal user "max_frequency").bind asNum = some m ∧ m ≠ 0) := by
    by_cases hst : "max_frequency" ∈ user.map Prod.fst
    · refine .inr ⟨fun hc => hc3 ⟨hst, hc⟩, ?_⟩
      obtain ⟨v, hv⟩ := lookupVal_isSome_of_mem user _ hst
      have hwt := htyped _ (lookupVal_mem user _ v hv)
      obtain ⟨m, hm, hm0⟩ := numNonzero_exists v (hwt.2.2.2.2.2.2 rfl)
      exact ⟨m, by rw [hv]; exact hm, hm0⟩
    · exact .inl hst
  obtain ⟨sd1, e1, pres1, sr1⟩ := apply_start_ok H user
    (coerce_channels (overwrite user (default_settings H)
      ((default_settings H).map Prod.fst))) hok1
  obtain ⟨sd2, e2, pres2, er2⟩ := apply_end_ok H user sd1 hok2
  obtain ⟨sd3, e3, pres3, dn3⟩ := apply_max_ok H user sd2 hok3
  refine ⟨sd3, ?_, ?_, ?_, ?_, ?_⟩
  · unfold define_read_settings define_read_settings_tr
    rw [if_neg (not_not_intro hguard)]
    show ((apply_start H user _).bind _) = _
    rw [e1]
    show ((apply_end H user sd1).bind _) = _
    rw [e2]
    exact e3
  · rcases dn3 with ⟨n, hn⟩ | hq3
    · exact ⟨n, hn⟩
    · refine ⟨nd, ?_⟩
      rw [hq3, pres2 _ (by decide), pres1 _ (by decide),
        coerce_channels_other _ _ (by decide)]
      exact hnd
  · refine ⟨lch, ?_⟩
    rw [pres3 _ (by decide), pres2 _ (by decide), pres1 _ (by decide)]
    exact hlch
  · rcases sr1 with ⟨n, hn⟩ | hq1
    · refine ⟨n, ?_⟩
      rw [pres3 _ (by decide), pres2 _ (by decide)]
      exact hn
    · refine ⟨ns, ?_⟩
      rw [pres3 _ (by decide), pres2 _ (by decide), hq1,
        coerce_channels_other _ _ (by decide)]
      exact hns
  · rcases er2 with ⟨n, hn⟩ | hq2
    · refine ⟨n, ?_⟩
      rw [pres3 _ (by decide)]
      exact hn
    · refine ⟨ne', ?_⟩
      rw [pres3 _ (by decide), hq2, pres1 _ (by decide),
        coerce_channels_other _ _ (by decide)]
      exact hne

/-- Counterexample for C2 as frozen: values are copied without type
checking, so `{downsample: "x"}` (keys a subset of the known keys, no
conflicting pair) resolves successfully yet leaves a non-integer
`downsample` in the plan. -/
theorem C2_counterexample :
    define_read_settings
        { channel_list := [0, 1], channel_names := ["c0", "c1"],
          data_length_reads := 100, file_frequency := 1000 }
        [("downsample", Val.vStr "x")] =
      .ok [("downsample", Val.vStr "x"), ("channels_to_read", Val.vList [0, 1]),
           ("start_read", Val.vInt 0), ("end_read", Val.vInt 100)] ∧
    lookupVal [("downsample", Val.vStr "x"), ("channels_to_read", Val.vList [0, 1]),
           ("start_read", Val.vInt 0), ("end_read", Val.vInt 100)] "downsample" =
      some (Val.vStr "x") ∧
    (Val.vStr "x").isInt = false := by
  exact ⟨rfl, rfl, rfl⟩

/-- Witness for C2 (amended) on a concrete well-typed mapping exercising
the channel coercion, a time conversion and a frequency conversion. -/
theorem C2_witness :
    ∃ sd, define_read_settings
        { channel_list := [0, 1], channel_names := ["c0", "c1"],
          data_length_reads := 100, file_frequency := 1000 }
        [("channels_to_read", Val.vInt 3), ("start_time", Val.vFloat (1 / 2)),
         ("max_frequency", Val.vInt 250)] = .ok sd ∧
      (∃ n : Int, lookupVal sd "downsample" = some (.vInt n)) ∧
      (∃ l : List Int, lookupVal sd "channels_to_read" = some (.vList l)) ∧
      (∃ n : Int, lookupVal sd "start_read" = some (.vInt n)) ∧
      (∃ n : Int, lookupVal sd "end_read" = some (.vInt n)) :=
  C2_resolution_well_typed _ _ (by decide) (by decide) (by decide) (by decide)
    (by decide)

/-- C9 (amended): when the keys are all known, at least one known key is
absent, both members of a mutually-exclusive pair are supplied, and any
time key present without its read-domain partner carries a numeric value,
resolution fails with the error naming a collided pair. -/
theorem C9_conflict_pairs (H : Header) (user : List (String × Val))
    (hsub : ∀ k ∈ user.map Prod.fst, k ∈ known_keys)
    (hproper : ∃ k ∈ known_keys, k ∉ user.map Prod.fst)
    (hpair : ("start_time" ∈ user.map Prod.fst ∧ "start_read" ∈ user.map Prod.fst) ∨
      ("end_time" ∈ user.map Prod.fst ∧ "end_read" ∈ user.map Prod.fst) ∨
      ("max_frequency" ∈ user.map Prod.fst ∧ "downsample" ∈ user.map Prod.fst))
    (hstart : "start_time" ∈ user.map Prod.fst →
      ("start_read" ∈ user.map Prod.fst ∨
        ((lookupVal user "start_time").bind asNum).isSome = true))
    (hend : "end_time" ∈ user.map Prod.fst →
      ("end_read" ∈ user.map Prod.fst ∨
        ((lookupVal user "end_time").bind asNum).isSome = true)) :
    ∃ a b, define_read_settings H user = .error (.conflictPair a b) ∧
      a ∈ user.map Prod.fst ∧ b ∈ user.map Prod.fst ∧
      ((a = "start_time" ∧ b = "start_read") ∨ (a = "end_time" ∧ b = "end_read") ∨
        (a = "max_frequency" ∧ b = "downsample")) := by
  have hopen : define_read_settings H user =
      ((apply_start H user
        (coerce_channels (overwrite user (default_settings H)
          ((default_settings H).map Prod.fst)))).bind
        (fun sd1 => (apply_end H user sd1).bind
          (fun sd2 => apply_max H user sd2))) := by
    unfold define_read_settings define_read_settings_tr
    rw [if_neg (not_not_intro ⟨hsub, hproper⟩)]
  by_cases hP1 : "start_time" ∈ user.map Prod.fst ∧ "start_read" ∈ user.map Prod.fst
  · refine ⟨"start_time", "start_read", ?_, hP1.1, hP1.2, .inl ⟨rfl, rfl⟩⟩
    rw [hopen, apply_start_conflict H user _ hP1.1 hP1.2]
    rfl
  · have hok1 : "start_time" ∉ user.map Prod.fst ∨
        ("start_read" ∉ user.map Prod.fst ∧
          ((lookupVal user "start_time").bind asNum).isSome = true) := by
      by_cases hst : "start_time" ∈ user.map Prod.fst
      · refine .inr ⟨fun hc => hP1 ⟨hst, hc⟩, ?_⟩
        rcases hstart hst with hc | hnum
        · exact absurd ⟨hst, hc⟩ hP1
        · exact hnum
      · exact .inl hst
    obtain ⟨sd1, e1, -, -⟩ := apply_start_ok H user _ hok1
    by_cases hP2 : "end_time" ∈ user.map Prod.fst ∧ "end_read" ∈ user.map Prod.fst
    · refine ⟨"end_time", "end_read", ?_, hP2.1, hP2.2, .inr (.inl ⟨rfl, rfl⟩)⟩
      rw [hopen]
      show ((apply_start H user _).bind _) = _
      rw [e1]
      show ((apply_end H user sd1).bind _) = _
      rw [apply_end_conflict H user sd1 hP2.1 hP2.2]
      rfl
    · have hok2 : "end_time" ∉ user.map Prod.fst ∨
          ("end_read" ∉ user.map Prod.fst ∧
            ((lookupVal user "end_time").bind asNum).isSome = true) := by
        by_cases hst : "end_time" ∈ user.map Prod.fst
        · refine .inr ⟨fun hc => hP2 ⟨hst, hc⟩, ?_⟩
          rcases hend hst with hc | hnum
          · exact absurd ⟨hst, hc⟩ hP2
          · exact hnum
        · exact .inl hst
      obtain ⟨sd2, e2, -, -⟩ := apply_end_ok H user sd1 hok2
      have hP3 : "max_frequency" ∈ user.map Prod.fst ∧
          "downsample" ∈ user.map Prod.fst := by
        rcases hpair with h | h | h
        · exact absurd h hP1
        · exact absurd h hP2
        · exact h
      refine ⟨"max_frequency", "downsample", ?_, hP3.1, hP3.2,
        .inr (.inr ⟨rfl, rfl⟩)⟩
      rw [hopen]
      show ((apply_start H user _).bind _) = _
      rw [e1]
      show ((apply_end H user sd1).bind _) = _
      rw [e2]
      exact apply_max_conflict H user sd2 hP3.1 hP3.2

/-- `define_read_settings` reported a pair collision. -/
def pairSignaled : Except SettingErr SDict → Bool
  | .error (.conflictPair _ _) => true
  | _ => false

/-- Counterexample for C9 as frozen: a mapping that contains the colliding
pair `start_time`/`start_read` but also an unknown key fails with the
unknown-keys error, which does not signal the pair. -/
theorem C9_counterexample :
    define_read_settings
        { channel_list := [0, 1], channel_names := ["c0", "c1"],
          data_length_reads := 100, file_frequency := 1000 }
        [("bogus", Val.vInt 0), ("start_time", Val.vInt 1), ("start_read", Val.vInt 2)] =
      .error (.unknownKeys ["bogus"] known_keys) ∧
    pairSignaled (define_read_settings
        { channel_list := [0, 1], channel_names := ["c0", "c1"],
          data_length_reads := 100, file_frequency := 1000 }
        [("bogus", Val.vInt 0), ("start_time", Val.vInt 1), ("start_read", Val.vInt 2)]) =
      false := by
  exact ⟨rfl, rfl⟩

/-- Witness for C9 (amended) on `{end_time: 1, end_read: 5}`. -/
theorem C9_witness :
    ∃ a b, define_read_settings
        { channel_list := [0, 1], channel_names := ["c0", "c1"],
          data_length_reads := 100, file_frequency := 1000 }
        [("end_time", Val.vInt 1), ("end_read", Val.vInt 5)] =
      .error (.conflictPair a b) ∧
      a ∈ [("end_time", Val.vInt 1), ("end_read", Val.vInt 5)].map Prod.fst ∧
      b ∈ [("end_time", Val.vInt 1), ("end_read", Val.vInt 5)].map Prod.fst ∧
      ((a = "start_time" ∧ b = "start_read") ∨ (a = "end_time" ∧ b = "end_read") ∨
        (a = "max_frequency" ∧ b = "downsample")) :=
  C9_conflict_pairs _ _ (by decide) (by decide) (by decide) (by decide) (by decide)

/-- The per-channel data store `self._internal_data_dict`: a dictionary
from channel number to a fixed-length numeric array. -/
abbrev Store := List (Int × List Int)

/-- `store[chn]` as an optional array. -/
def lookupStore : Store → Int → Option (List Int)
  | [], _ => none
  | p :: rest, c => if p.1 = c then some p.2 else lookupStore rest c

/-- In-place replacement of the array held for an existing channel
(the slice assignment mutates the array object bound to the key). -/
def updateStore (st : Store) (c : Int) (arr : List Int) : Store :=
  st.map (fun p => if p.1 = c then (c, arr) else p)

/-- numpy slice assignment `arr[idx : idx + len(run)] = run`: overwrites in
place when the run fits, raises a broadcast `ValueError` otherwise
(numpy clips the slice, so a run extending past the end cannot be
broadcast into it). -/
def writeSlice (arr : List Int) (idx : Nat) (run : List Int) : Option (List Int) :=
  if idx + run.length ≤ arr.length then
    some (arr.take idx ++ run ++ arr.drop (idx + run.length))
  else none

/-- Python exceptions that can escape `load_data_dict`. -/
inductive PyError where
  | keyError : Int → PyError
  | nameError : PyError
  | valueError : PyError
  | typeError : PyError
deriving DecidableEq

/-- The state of a `DigAccess` object relevant to data assembly: the header
facts it consults, the resolved plan fields the `DigRead` collaborator
exposes back (`read.settings`, `read.downsample`, `read.channels_to_read`),
the platform capacity bound enforced by `np.zeros` (numpy's maximum array
size — the source's own `MAX_ARRAY_SIZE` constant is declared but never
consulted), the segment sequence `read.data_segments()` yields, and the
cached store. -/
structure Session where
  channel_list : List Int
  channel_names : List String
  channels_to_read : Val
  start_read : Nat
  end_read : Nat
  downsample : Nat
  max_array_size : Nat
  segs : List (List (Int × List Int))
  store : Store
deriving DecidableEq

/-- `array_size = (end_read - start_read) / downsample` (integer division,
matching the segment chunking). -/
def array_size (s : Session) : Nat :=
  (s.end_read - s.start_read) / s.downsample

/-- `DigAccess.allocate_data_dict`.  When a channel list is present and the
computed length exceeds the platform capacity, `np.zeros` raises
`ValueError`; the handler prints a message and does NOT re-raise, so the
method returns normally with `self._internal_data_dict` unchanged.  A
non-iterable channel value makes the comprehension raise `TypeError`,
which no handler catches. -/
def allocate_data_dict (s : Session) : Except PyError Store :=
  match s.channels_to_read with
  | .vList read_channels =>
    if read_channels ≠ [] ∧ s.max_array_size < array_size s then
      .ok s.store
    else
      .ok (read_channels.map (fun c => (c, List.replicate (array_size s) (0 : Int))))
  | _ => .error .typeError

/-- The inner loop of `load_data_dict`: `for chn in segment:
length = len(segment[chn]); dict[chn][index:index+length] = segment[chn]`.
The running `length` binding is threaded through as an `Option Nat`
(`none` while the variable is still unbound). -/
def writeSeg : Store → Nat → Option Nat → List (Int × List Int) →
    Except PyError (Option Nat) × Store
  | st, _, len?, [] => (.ok len?, st)
  | st, idx, _, (chn, run) :: rest =>
    match lookupStore st chn with
    | none => (.error (.keyError chn), st)
    | some arr =>
      match writeSlice arr idx run with
      | none => (.error .valueError, st)
      | some arr2 => writeSeg (updateStore st chn arr2) idx (some run.length) rest

/-- The outer loop of `load_data_dict`: after each segment,
`index += length`, which raises `NameError` when `length` was never
assigned (every segment so far was empty). -/
def loadLoop : Store → Nat → Option Nat → List (List (Int × List Int)) →
    Except PyError Unit × Store
  | st, _, _, [] => (.ok (), st)
  | st, idx, len?, seg :: rest =>
    match writeSeg st idx len? seg with
    | (.error e, st2) => (.error e, st2)
    | (.ok none, st2) => (.error .nameError, st2)
    | (.ok (some l), st2) => loadLoop st2 (idx + l) (some l) rest

/-- `DigAccess.load_data_dict`: allocate, then accumulate the segment
sequence.  The session state after the call is returned even when an
exception escapes, because the partially-mutated `self._internal_data_dict`
persists on the object. -/
def load_data_dict (s : Session) : Except PyError Unit × Session :=
  match allocate_data_dict s with
  | .error e => (.error e, s)
  | .ok st1 =>
    match loadLoop st1 0 none s.segs with
    | (r, st2) => (r, { s with store := st2 })

/-- The `data_dict` property: `if not self._internal_data_dict:
self.load_data_dict()`, then return the store.  The `Bool` component
records whether this access ran the assembly. -/
def data_dict (s : Session) : Except PyError Store × Session × Bool :=
  if s.store = [] then
    match load_data_dict s with
    | (.ok _, s2) => (.ok s2.store, s2, true)
    | (.error e, s2) => (.error e, s2, true)
  else (.ok s.store, s, false)

/-- Errors the `channel` accessor can raise: the `DigReadSettingError`
telling the caller `channels_to_read` must be an iterable sequence, the
`KeyError` whose message lists every channel number and name from the
header, or an exception propagated from assembly. -/
inductive ChannelErr where
  | settingNotIterable : ChannelErr
  | invalidChannel : Int → List Int → List String → ChannelErr
  | loadError : PyError → ChannelErr
deriving DecidableEq

/-- `DigAccess.channel`: membership test in `read.channels_to_read`
(raising `TypeError` → `DigReadSettingError` when that value is not
iterable by integers), lazy assembly via `data_dict`, and the diagnostic
`KeyError` listing `header.channel_list` and `header.channel_names` when
the channel was not read. -/
def channel (s : Session) (chn : Int) : Except ChannelErr (List Int) :=
  match s.channels_to_read with
  | .vList l =>
    if chn ∈ l then
      match data_dict s with
      | (.ok st, _, _) =>
        match lookupStore st chn with
        | some arr => .ok arr
        | none => .error (.loadError (.keyError chn))
      | (.error e, _, _) => .error (.loadError e)
    else .error (.invalidChannel chn s.channel_list s.channel_names)
  | _ => .error .settingNotIterable

/-- A session whose computed allocation length (201 reads) exceeds the
platform capacity (100), with one segment pending. -/
def oversizeSession : Session :=
  { channel_list := [0], channel_names := ["c0"],
    channels_to_read := .vList [0],
    start_read := 0, end_read := 201, downsample := 1,
    max_array_size := 100,
    segs := [[(0, [1, 2])]],
    store := [] }

/-- C1 (code bug): at a plan whose computed length exceeds the platform
capacity, the `ValueError` from `np.zeros` is caught and only printed —
not re-raised — so `load_data_dict` continues with the old empty store and
the caller receives a `KeyError` from the first segment write instead of a
capacity error.  The cached store does stay empty (no partial data), which
is the half of the claim the code honors. -/
theorem C1_capacity_swallowed :
    (load_data_dict oversizeSession).1 = .error (.keyError 0) ∧
    ((load_data_dict oversizeSession).2).store = [] := by
  exact ⟨rfl, rfl⟩

/-- A session with an empty channel plan: assembly yields an empty store. -/
def emptyChannelsSession : Session :=
  { channel_list := [0, 1], channel_names := ["c0", "c1"],
    channels_to_read := .vList [],
    start_read := 0, end_read := 10, downsample := 1,
    max_array_size := 1000,
    segs := [],
    store := [] }

/-- Counterexample for C5 as frozen: with an empty `channels_to_read` the
assembled store is the empty dictionary, which the truthiness test treats
as absent, so the second access runs assembly again (its ran-assembly flag
is `true`) instead of returning a cached store. -/
theorem C5_counterexample :
    (data_dict emptyChannelsSession).2.2 = true ∧
    (data_dict (data_dict emptyChannelsSession).2.1).2.2 = true := by
  exact ⟨rfl, rfl⟩

/-- C5 (amended): an access finding an empty store triggers assembly, and
an access finding a nonempty store returns it unchanged without re-running
allocation or accumulation — so once assembly has produced a nonempty
store it is cached and never invalidated, while an empty assembled store
(empty `channels_to_read`) re-triggers assembly on every access. -/
theorem C5_lazy_cache (s : Session) :
    (s.store = [] → (data_dict s).2.2 = true) ∧
    (s.store ≠ [] → data_dict s = (.ok s.store, s, false)) := by
  constructor
  · intro h
    unfold data_dict
    rw [if_pos h]
    rcases load_data_dict s with ⟨r, s2⟩
    cases r with
    | ok u => rfl
    | error e => rfl
  · intro h
    unfold data_dict
    rw [if_neg h]

/-- Witness for C5 (amended): a first access on an empty store runs
assembly; an access on a cached nonempty store is a no-op returning it. -/
theorem C5_witness :
    (data_dict
      { channel_list := [0], channel_names := ["c0"],
        channels_to_read := .vList [0],
        start_read := 0, end_read := 2, downsample := 1,
        max_array_size := 1000, segs := [[(0, [1, 2])]],
        store := [] }).2.2 = true ∧
    data_dict
      { channel_list := [0], channel_names := ["c0"],
        channels_to_read := .vList [0],
        start_read := 0, end_read := 2, downsample := 1,
        max_array_size := 1000, segs := [],
        store := [(0, [7, 8])] } =
    (.ok [(0, [7, 8])],
      { channel_list := [0], channel_names := ["c0"],
        channels_to_read := .vList [0],
        start_read := 0, end_read := 2, downsample := 1,
        max_array_size := 1000, segs := [],
        store := [(0, [7, 8])] }, false) :=
  ⟨(C5_lazy_cache _).1 rfl, (C5_lazy_cache _).2 (by decide)⟩

/-- C4: requesting a channel not in the plan fails with the diagnostic
error listing every channel number and every channel name from the file
header (not just the requested subset); and when `channels_to_read` is not
a list the accessor fails with the settings error instead. -/
theorem C4_channel_lookup_errors (s : Session) (chn : Int) :
    (∀ l, s.channels_to_read = .vList l → chn ∉ l →
      channel s chn = .error (.invalidChannel chn s.channel_list s.channel_names)) ∧
    ((∀ l, s.channels_to_read ≠ .vList l) →
      channel s chn = .error .settingNotIterable) := by
  constructor
  · intro l hl hmem
    simp only [channel, hl]
    rw [if_neg hmem]
  · intro h
    cases hv : s.channels_to_read with
    | vList l => exact absurd hv (h l)
    | vInt n => simp only [channel, hv]
    | vFloat q => simp only [channel, hv]
    | vStr str => simp only [channel, hv]

/-- Witness for C4: channel 7 is not among the read channels `[5]`, and an
integer `channels_to_read` triggers the settings error. -/
theorem C4_witness :
    channel
      { channel_list := [0, 1], channel_names := ["c0", "c1"],
        channels_to_read := .vList [5],
        start_read := 0, end_read := 3, downsample := 1,
        max_array_size := 1000, segs := [], store := [] } 7 =
      .error (.invalidChannel 7 [0, 1] ["c0", "c1"]) ∧
    channel
      { channel_list := [0, 1], channel_names := ["c0", "c1"],
        channels_to_read := .vInt 5,
        start_read := 0, end_read := 3, downsample := 1,
        max_array_size := 1000, segs := [], store := [] } 7 =
      .error .settingNotIterable :=
  ⟨(C4_channel_lookup_errors _ 7).1 [5] rfl (by decide),
    (C4_channel_lookup_errors _ 7).2 (by intro l h; cases h)⟩

lemma lookupStore_updateStore_ne (st : Store) (c c' : Int) (v : List Int)
    (h : c' ≠ c) :
    lookupStore (updateStore st c v) c' = lookupStore st c' := by
  induction st with
  | nil => rfl
  | cons p rest ih =>
    unfold updateStore at ih ⊢
    by_cases hp : p.1 = c
    · have hpk' : ¬ p.1 = c' := by rw [hp]; exact Ne.symm h
      simp only [List.map_cons, if_pos hp, lookupStore, if_neg (Ne.symm h), if_neg hpk']
      exact ih
    · simp only [List.map_cons, if_neg hp, lookupStore]
      by_cases hpk' : p.1 = c'
      · rw [if_pos hpk', if_pos hpk']
      · rw [if_neg hpk', if_neg hpk']
        exact ih

lemma lookupStore_updateStore_self (st : Store) (c : Int) (v arr : List Int)
    (h : lookupStore st c = some arr) :
    lookupStore (updateStore st c v) c = some v := by
  induction st with
  | nil => simp [lookupStore] at h
  | cons p rest ih =>
    unfold updateStore at ih ⊢
    by_cases hp : p.1 = c
    · simp [lookupStore, hp]
    · simp only [lookupStore, if_neg hp] at h
      simp only [List.map_cons, if_neg hp, lookupStore, if_neg hp]
      exact ih h

lemma keys_updateStore (st : Store) (c : Int) (v : List Int) :
    (updateStore st c v).map Prod.fst = st.map Prod.fst := by
  induction st with
  | nil => rfl
  | cons p rest ih =>
    unfold updateStore at ih ⊢
    by_cases hp : p.1 = c
    · simp only [List.map_cons, if_pos hp]
      rw [ih]
      simp [hp]
    · simp only [List.map_cons, if_neg hp]
      rw [ih]

lemma lookupStore_isSome_of_mem (st : Store) (c : Int)
    (h : c ∈ st.map Prod.fst) : ∃ arr, lookupStore st c = some arr := by
  induction st with
  | nil => simp at h
  | cons p rest ih =>
    by_cases hp : p.1 = c
    · exact ⟨p.2, by simp [lookupStore, hp]⟩
    · have : c ∈ rest.map Prod.fst := by
        simp only [List.map_cons, List.mem_cons] at h
        rcases h with h | h
        · exact absurd h.symm hp
        · exact h
      simpa [lookupStore, hp] using ih this

lemma lookupStore_none_of_not_mem (st : Store) (c : Int)
    (h : c ∉ st.map Prod.fst) : lookupStore st c = none := by
  induction st with
  | nil => rfl
  | cons p rest ih =>
    simp only [List.map_cons, List.mem_cons, not_or] at h
    rw [lookupStore, if_neg (Ne.symm h.1)]
    exact ih h.2

lemma mem_keys_of_lookupStore (st : Store) (c : Int) (arr : List Int)
    (h : lookupStore st c = some arr) : c ∈ st.map Prod.fst := by
  by_cases hc : c ∈ st.map Prod.fst
  · exact hc
  · rw [lookupStore_none_of_not_mem st c hc] at h
    cases h

lemma lookupStore_mem (st : Store) (c : Int) (arr : List Int)
    (h : lookupStore st c = some arr) : (c, arr) ∈ st := by
  induction st with
  | nil => simp [lookupStore] at h
  | cons p rest ih =>
    by_cases hp : p.1 = c
    · simp only [lookupStore, if_pos hp] at h
      have hpv : p = (c, arr) := by
        cases p with
        | mk a b => simp_all
      rw [← hpv] at *
      exact List.mem_cons_self p rest
    · simp only [lookupStore, if_neg hp] at h
      exact List.mem_cons_of_mem _ (ih h)

lemma lookupStore_alloc (chans : List Int) (arr0 : List Int) (c : Int)
    (h : c ∈ chans) :
    lookupStore (chans.map (fun ch => (ch, arr0))) c = some arr0 := by
  induction chans with
  | nil => simp at h
  | cons c0 rest ih =>
    by_cases hc : c0 = c
    · simp [lookupStore, hc]
    · have : c ∈ rest := by
        rcases List.mem_cons.mp h with h | h
        · exact absurd h.symm hc
        · exact h
      simpa [lookupStore, hc] using ih this

lemma lookupStore_alloc_val (chans : List Int) (arr0 : List Int) (c : Int)
    (arr : List Int)
    (h : lookupStore (chans.map (fun ch => (ch, arr0))) c = some arr) :
    arr = arr0 := by
  have hmem := lookupStore_mem _ _ _ h
  obtain ⟨ch, -, hch⟩ := List.mem_map.mp hmem
  exact (congrArg Prod.snd hch).symm

/-- `len(segment[chn])` for the first channel of a segment; under the
equal-length hypothesis every run in the segment has this length. -/
def segLength : List (Int × List Int) → Nat
  | [] => 0
  | p :: _ => p.2.length

/-- The run a segment carries for channel `c` (empty when absent). -/
def segRun (seg : List (Int × List Int)) (c : Int) : List Int :=
  (lookupStore seg c).getD []

lemma writeSeg_writes (seg : List (Int × List Int)) :
    ∀ (st : Store) (idx : Nat) (len? : Option Nat) (L : Nat),
    (seg.map Prod.fst).Nodup →
    (∀ p ∈ seg, p.2.length = L) →
    (∀ p ∈ seg, ∃ arr, lookupStore st p.1 = some arr ∧ idx + L ≤ arr.length) →
    ∃ st2,
      writeSeg st idx len? seg = (.ok (if seg = [] then len? else some L), st2) ∧
      st2.map Prod.fst = st.map Prod.fst ∧
      (∀ c, lookupStore seg c = none → lookupStore st2 c = lookupStore st c) ∧
      (∀ c run arr, lookupStore seg c = some run → lookupStore st c = some arr →
        lookupStore st2 c =
          some (arr.take idx ++ run ++ arr.drop (idx + run.length))) := by
  induction seg with
  | nil =>
    intro st idx len? L hnd hlen hfit
    refine ⟨st, by simp [writeSeg], rfl, fun c _ => rfl, fun c run arr hc _ => ?_⟩
    simp [lookupStore] at hc
  | cons hd rest ih =>
    intro st idx len? L hnd hlen hfit
    obtain ⟨c0, run0⟩ := hd
    obtain ⟨arr0, ha0, hfit0⟩ := hfit (c0, run0) (List.mem_cons_self _ _)
    have hrun0 : run0.length = L := hlen (c0, run0) (List.mem_cons_self _ _)
    have hslice : writeSlice arr0 idx run0 =
        some (arr0.take idx ++ run0 ++ arr0.drop (idx + run0.length)) := by
      unfold writeSlice
      rw [if_pos (by rw [hrun0]; exact hfit0)]
    have hnd2 : (c0 :: rest.map Prod.fst).Nodup := by simpa using hnd
    have hnd' : (rest.map Prod.fst).Nodup := (List.nodup_cons.mp hnd2).2
    have hc0rest : c0 ∉ rest.map Prod.fst := (List.nodup_cons.mp hnd2).1
    have hfit' : ∀ q ∈ rest, ∃ arr,
        lookupStore (updateStore st c0
          (arr0.take idx ++ run0 ++ arr0.drop (idx + run0.length))) q.1 = some arr ∧
        idx + L ≤ arr.length := by
      intro q hq
      have hq1 : q.1 ≠ c0 := by
        intro hc
        exact hc0rest (hc ▸ List.mem_map.mpr ⟨q, hq, rfl⟩)
      obtain ⟨arr, ha, hfita⟩ := hfit q (List.mem_cons_of_mem _ hq)
      exact ⟨arr, by rw [lookupStore_updateStore_ne st c0 q.1 _ hq1]; exact ha, hfita⟩
    obtain ⟨st2, hres, hkeys, hnone, hsome⟩ :=
      ih (updateStore st c0 (arr0.take idx ++ run0 ++ arr0.drop (idx + run0.length)))
        idx (some run0.length) L hnd'
        (fun q hq => hlen q (List.mem_cons_of_mem _ hq)) hfit'
    refine ⟨st2, ?_, ?_, ?_, ?_⟩
    · rw [show writeSeg st idx len? ((c0, run0) :: rest) =
          writeSeg (updateStore st c0
            (arr0.take idx ++ run0 ++ arr0.drop (idx + run0.length)))
            idx (some run0.length) rest from by
        simp only [writeSeg, ha0, hslice]]
      rw [hres]
      by_cases hrest : rest = []
      · simp [hrest, hrun0]
      · simp [hrest]
    · rw [hkeys, keys_updateStore]
    · intro c hc
      rw [lookupStore] at hc
      by_cases hcc : c0 = c
      · rw [if_pos hcc] at hc
        cases hc
      · rw [if_neg hcc] at hc
        rw [hnone c hc]
        exact lookupStore_updateStore_ne st c0 c _ (Ne.symm hcc)
    · intro c run arr hc harr
      rw [lookupStore] at hc
      by_cases hcc : c0 = c
      · subst hcc
        rw [if_pos rfl] at hc
        have hrr : run0 = run := Option.some.inj hc
        have harr0 : arr = arr0 := Option.some.inj (harr.symm.trans ha0)
        have hrestnone : lookupStore rest c0 = none :=
          lookupStore_none_of_not_mem rest c0 hc0rest
        rw [hnone c0 hrestnone,
          lookupStore_updateStore_self st c0 _ arr0 ha0, harr0, ← hrr]
      · rw [if_neg hcc] at hc
        have harr' : lookupStore (updateStore st c0
            (arr0.take idx ++ run0 ++ arr0.drop (idx + run0.length))) c = some arr := by
          rw [lookupStore_updateStore_ne st c0 c _ (Ne.symm hcc)]
          exact harr
        exact hsome c run arr hc harr'

lemma loadLoop_assemble (chans : List Int) (hne : chans ≠ []) (hnd : chans.Nodup) :
    ∀ (segs : List (List (Int × List Int))) (st : Store) (idx : Nat)
      (len? : Option Nat),
    st.map Prod.fst = chans →
    (∀ seg ∈ segs, seg.map Prod.fst = chans ∧
      ∀ p ∈ seg, p.2.length = segLength seg) →
    (∀ c arr, lookupStore st c = some arr →
      arr.length = idx + (segs.map segLength).sum) →
    ∃ st2, loadLoop st idx len? segs = (.ok (), st2) ∧
      ∀ c arr, lookupStore st c = some arr →
        lookupStore st2 c =
          some (arr.take idx ++ (segs.map (fun seg => segRun seg c)).flatten) := by
  intro segs
  induction segs with
  | nil =>
    intro st idx len? hkeys hsegs hlen
    refine ⟨st, rfl, fun c arr harr => ?_⟩
    have hl := hlen c arr harr
    simp only [List.map_nil, List.sum_nil, Nat.add_zero] at hl
    simp only [List.map_nil, List.flatten_nil, List.append_nil]
    rw [List.take_of_length_le (le_of_eq hl)]
    exact harr
  | cons seg rest ih =>
    intro st idx len? hkeys hsegs hlen
    have hsegkeys : seg.map Prod.fst = chans := (hsegs seg (List.mem_cons_self _ _)).1
    have hseglen : ∀ p ∈ seg, p.2.length = segLength seg :=
      (hsegs seg (List.mem_cons_self _ _)).2
    have hsegne : seg ≠ [] := by
      intro hc
      rw [hc] at hsegkeys
      exact hne hsegkeys.symm
    have hfit : ∀ p ∈ seg, ∃ arr, lookupStore st p.1 = some arr ∧
        idx + segLength seg ≤ arr.length := by
      intro p hp
      have hpk : p.1 ∈ chans := hsegkeys ▸ List.mem_map.mpr ⟨p, hp, rfl⟩
      obtain ⟨arr, harr⟩ := lookupStore_isSome_of_mem st p.1 (by rw [hkeys]; exact hpk)
      refine ⟨arr, harr, ?_⟩
      have hl := hlen p.1 arr harr
      simp only [List.map_cons, List.sum_cons] at hl
      omega
    obtain ⟨st', hres, hkeys', hnone', hsome'⟩ :=
      writeSeg_writes seg st idx len? (segLength seg)
        (by rw [hsegkeys]; exact hnd) hseglen hfit
    have hstep : ∀ c arr, lookupStore st c = some arr →
        ∃ run, lookupStore seg c = some run ∧ run.length = segLength seg ∧
          lookupStore st' c =
            some (arr.take idx ++ run ++ arr.drop (idx + segLength seg)) := by
      intro c arr harr
      have hcin : c ∈ chans := by
        rw [← hkeys]
        exact mem_keys_of_lookupStore st c arr harr
      obtain ⟨run, hrun⟩ := lookupStore_isSome_of_mem seg c (by rw [hsegkeys]; exact hcin)
      have hrl : run.length = segLength seg := hseglen _ (lookupStore_mem seg c run hrun)
      refine ⟨run, hrun, hrl, ?_⟩
      have h2 := hsome' c run arr hrun harr
      rw [hrl] at h2
      exact h2
    have hkeys'' : st'.map Prod.fst = chans := by rw [hkeys']; exact hkeys
    have hlen' : ∀ c arr', lookupStore st' c = some arr' →
        arr'.length = (idx + segLength seg) + (rest.map segLength).sum := by
      intro c arr' harr'
      have hcin : c ∈ chans := by
        rw [← hkeys'']
        exact mem_keys_of_lookupStore st' c arr' harr'
      obtain ⟨arr, harr⟩ := lookupStore_isSome_of_mem st c (by rw [hkeys]; exact hcin)
      obtain ⟨run, hrun, hrl, hst'⟩ := hstep c arr harr
      rw [hst'] at harr'
      have harr'eq : arr' = arr.take idx ++ run ++ arr.drop (idx + segLength seg) :=
        (Option.some.inj harr').symm
      have hlarr := hlen c arr harr
      simp only [List.map_cons, List.sum_cons] at hlarr
      rw [harr'eq]
      simp only [List.length_append, List.length_take, List.length_drop, hrl]
      omega
    obtain ⟨st2, hloop, hfinal⟩ := ih st' (idx + segLength seg) (some (segLength seg))
      hkeys'' (fun sg hsg => hsegs sg (List.mem_cons_of_mem _ hsg)) hlen'
    refine ⟨st2, ?_, ?_⟩
    · have hres' : writeSeg st idx len? seg = (.ok (some (segLength seg)), st') := by
        rw [hres, if_neg hsegne]
      simp only [loadLoop, hres']
      exact hloop
    · intro c arr harr
      obtain ⟨run, hrun, hrl, hst'⟩ := hstep c arr harr
      have h2 := hfinal c _ hst'
      have hlarr := hlen c arr harr
      simp only [List.map_cons, List.sum_cons] at hlarr
      have htake : ((arr.take idx ++ run) ++ arr.drop (idx + segLength seg)).take
          (idx + segLength seg) = arr.take idx ++ run := by
        apply List.take_left'
        simp only [List.length_append, List.length_take, hrl]
        omega
      rw [h2, show arr.take idx ++ run ++ arr.drop (idx + segLength seg) =
        (arr.take idx ++ run) ++ arr.drop (idx + segLength seg) from rfl, htake]
      simp only [List.map_cons, List.flatten_cons]
      rw [show segRun seg c = run from by unfold segRun; rw [hrun]; rfl]
      rw [List.append_assoc]

/-- C3: when every segment carries, for every channel of the plan, runs of
a common per-segment length, and the total per-channel length equals the
allocated array length, assembly succeeds and each channel's array is the
in-order concatenation of that channel's runs across the segments. -/
theorem C3_assembly_concat (s : Session) (chans : List Int)
    (hch : s.channels_to_read = .vList chans)
    (hne : chans ≠ []) (hnd : chans.Nodup)
    (hcap : array_size s ≤ s.max_array_size)
    (hsegs : ∀ seg ∈ s.segs, seg.map Prod.fst = chans ∧
      ∀ p ∈ seg, p.2.length = segLength seg)
    (htot : (s.segs.map segLength).sum = array_size s) :
    (load_data_dict s).1 = .ok () ∧
    ∀ c ∈ chans, lookupStore ((load_data_dict s).2).store c =
      some ((s.segs.map (fun seg => segRun seg c)).flatten) := by
  have halloc : allocate_data_dict s =
      .ok (chans.map (fun c => (c, List.replicate (array_size s) (0 : Int)))) := by
    simp only [allocate_data_dict, hch]
    rw [if_neg (fun hc => absurd hc.2 (not_lt.mpr hcap))]
  have hkeys : (chans.map
      (fun c => (c, List.replicate (array_size s) (0 : Int)))).map Prod.fst = chans := by
    rw [List.map_map,
      show (Prod.fst ∘ fun c : Int => (c, List.replicate (array_size s) (0 : Int))) = id
        from rfl, List.map_id]
  have hlen : ∀ c arr, lookupStore (chans.map
      (fun c => (c, List.replicate (array_size s) (0 : Int)))) c = some arr →
      arr.length = 0 + (s.segs.map segLength).sum := by
    intro c arr harr
    have hval := lookupStore_alloc_val chans _ c arr harr
    rw [hval, List.length_replicate]
    omega
  obtain ⟨st2, hloop, hfinal⟩ :=
    loadLoop_assemble chans hne hnd s.segs _ 0 none hkeys hsegs hlen
  have hload : load_data_dict s = (.ok (), { s with store := st2 }) := by
    simp only [load_data_dict, halloc, hloop]
  constructor
  · rw [hload]
  · intro c hc
    rw [hload]
    have halc := lookupStore_alloc chans (List.replicate (array_size s) (0 : Int)) c hc
    have h2 := hfinal c _ halc
    simpa using h2

/-- The concrete session of the claim: channels `{0, 1}`, segments of
lengths `[4, 4, 2]`, a 10-sample allocation. -/
def tenSampleSession : Session :=
  { channel_list := [0, 1], channel_names := ["c0", "c1"],
    channels_to_read := .vList [0, 1],
    start_read := 0, end_read := 10, downsample := 1,
    max_array_size := 1000,
    segs := [[(0, [1, 2, 3, 4]), (1, [5, 6, 7, 8])],
             [(0, [9, 10, 11, 12]), (1, [13, 14, 15, 16])],
             [(0, [17, 18]), (1, [19, 20])]],
    store := [] }

/-- Witness for C3: segments of lengths `[4, 4, 2]` across channels
`{0, 1}` into a 10-sample allocation. -/
theorem C3_witness :
    (load_data_dict tenSampleSession).1 = .ok () ∧
    lookupStore ((load_data_dict tenSampleSession).2).store 0 =
      some ((tenSampleSession.segs.map (fun seg => segRun seg 0)).flatten) ∧
    lookupStore ((load_data_dict tenSampleSession).2).store 1 =
      some ((tenSampleSession.segs.map (fun seg => segRun seg 1)).flatten) :=
  have h := C3_assembly_concat tenSampleSession [0, 1] rfl (by decide) (by decide)
    (by decide) (by decide) (by decide)
  ⟨h.1, h.2 0 (by decide), h.2 1 (by decide)⟩

end Fierdat
